import Mathlib
set_option maxHeartbeats 1000000
/-!
Verification of the mysql-migration-monitor reconciliation core.

Shallow embedding of `src/app.py` (the Textual monitor, authoritative for the
reconciliation engine) and of the `TableInfo` variant in `src/cdc_monitor.py`.
Strings are modelled as `List Char`; timestamps as abstract `Nat` ticks; a
database query is an oracle `List Char → Option Nat` (`none` = the query for
that table raised).  Python's regex `\d` is modelled as an ASCII digit, `$`
as matching at the end of the string or just before a trailing newline (its
Python semantics), and `.` as any character other than a newline.
-/

abbrev Str := List Char

/-- The `TableInfo` dataclass of `src/app.py` (lines 46-64).  Datetime fields
become `Nat` ticks; all other fields and their defaults are kept. -/
structure TableInfo where
  schema_name : Str
  target_table_name : Str
  target_rows : Int := 0
  source_rows : Int := 0
  previous_target_rows : Int := 0
  previous_source_rows : Int := 0
  source_tables : List Str := []
  last_updated : Nat := 0
  source_last_updated : Nat := 0
  target_last_updated : Nat := 0
  is_first_query : Bool := true
  source_updating : Bool := false
  target_updating : Bool := false
  target_is_estimated : Bool := false
  source_is_estimated : Bool := false
  pause_auto_refresh : Bool := false
deriving DecidableEq

/-- `TableInfo.data_diff` of `src/app.py` (lines 67-72): 0 in error state,
otherwise target minus source. -/
def TableInfo.data_diff (t : TableInfo) : Int :=
  if t.target_rows = -1 ∨ t.source_rows = -1 then 0
  else t.target_rows - t.source_rows

/-- `TableInfo.is_consistent` of `src/app.py` (lines 74-77): plain equality. -/
def TableInfo.is_consistent (t : TableInfo) : Bool :=
  t.target_rows == t.source_rows

/-- The `TableInfo` dataclass of `src/cdc_monitor.py` (lines 45-61): no
`source_tables`, no `pause_auto_refresh`. -/
structure CdcTableInfo where
  schema_name : Str
  target_table_name : Str
  source_rows : Int := 0
  target_rows : Int := 0
  previous_source_rows : Int := 0
  previous_target_rows : Int := 0
  last_updated : Nat := 0
  source_last_updated : Nat := 0
  target_last_updated : Nat := 0
  is_first_query : Bool := true
  source_updating : Bool := false
  target_updating : Bool := false
  source_is_estimated : Bool := false
  target_is_estimated : Bool := false
deriving DecidableEq

/-- `TableInfo.is_consistent` of `src/cdc_monitor.py` (lines 75-80): the
variant that special-cases `0 == 0` before falling back to equality. -/
def CdcTableInfo.is_consistent (t : CdcTableInfo) : Bool :=
  if t.target_rows == 0 && t.source_rows == 0 then true
  else t.target_rows == t.source_rows

/-- An app.py record carrying just the two counts (identity fields dummy),
used to compare the two `is_consistent` variants as functions of the counts. -/
def appRecOf (tr sr : Int) : TableInfo :=
  { schema_name := [], target_table_name := [], target_rows := tr, source_rows := sr }

/-- A cdc_monitor.py record carrying just the two counts. -/
def cdcRecOf (tr sr : Int) : CdcTableInfo :=
  { schema_name := [], target_table_name := [], target_rows := tr, source_rows := sr }

/-- The per-record eligibility filter that `MonitorApp.refresh_data`
(`src/app.py` lines 796-807) applies when assembling the tables to poll:
skip a record exactly when it is consistent and paused. -/
def eligibleTables (ts : List TableInfo) : List TableInfo :=
  ts.filter (fun t => !(t.is_consistent && t.pause_auto_refresh))

/-- Scheduler-level state of `MonitorApp` (`src/app.py` lines 370-384):
the table list, the two iteration counters, the source interval and the
global pause/stop flags. -/
structure SchedState where
  tables : List TableInfo
  target_iteration : Nat := 0
  source_iteration : Nat := 0
  source_update_interval : Nat := 5
  is_paused : Bool := false
  stop_flag : Bool := false

/-- `MonitorApp.refresh_data` (`src/app.py` lines 792-832) at scheduler level.
Launching the polls is abstracted into two Booleans
(target polled?, source polled?); the counter updates mirror the code:
the target counter is always incremented, and the source side runs only when
the incremented target counter is divisible by `source_update_interval`. -/
def refresh_data (st : SchedState) : SchedState × Bool × Bool :=
  if st.stop_flag || st.is_paused then (st, false, false)
  else if eligibleTables st.tables = [] then (st, false, false)
  else
    let ti := st.target_iteration + 1
    let srcPolled := ti % st.source_update_interval == 0
    ({ st with
        target_iteration := ti,
        source_iteration := if srcPolled then st.source_iteration + 1 else st.source_iteration },
      true, srcPolled)

/-- `MonitorApp.action_refresh` (`src/app.py` lines 841-848): clear every
record's `pause_auto_refresh`, then run `refresh_data` (the `call_later`
is modelled as an immediate call). -/
def action_refresh (st : SchedState) : SchedState × Bool × Bool :=
  refresh_data { st with
    tables := st.tables.map (fun t => { t with pause_auto_refresh := false }) }

/-- A concrete scheduler state for the C7 counterexample: one inconsistent
table, fresh counters (`target_iteration = 0`), default interval 5. -/
def c7state : SchedState :=
  { tables := [appRecOf 3 4] }

/-- The "pause the record when it is now consistent" epilogue that both
exact update paths of `src/app.py` share (lines 1619-1622 for the target
side, lines 1429-1432 for the source side). -/
def pauseIfConsistent (t1 : TableInfo) : TableInfo :=
  if t1.is_consistent then { t1 with pause_auto_refresh := true } else t1

/-- One per-record step of the exact-COUNT target pass of
`MonitorApp._update_single_schema_target` (`src/app.py` lines 1586-1636).
The oracle gives the `COUNT(*)` result for a table, `none` meaning the query
raised.  On success the count is stored, the record is marked precise, the
updating flag is cleared and the record is paused when now consistent.  On
failure the count becomes -1 and — faithful to the code's except-branch —
`target_updating` is NOT cleared. -/
def updateTargetExactStep (o : Str → Option Nat) (now : Nat) (t : TableInfo) : TableInfo :=
  match o t.target_table_name with
  | some n =>
    let t1 := { t with
      previous_target_rows := if t.is_first_query then (n : Int) else t.target_rows,
      is_first_query := false,
      target_rows := (n : Int),
      target_last_updated := now,
      target_updating := false,
      target_is_estimated := false }
    pauseIfConsistent t1
  | none =>
    { t with
      previous_target_rows := if t.is_first_query then (-1 : Int) else t.target_rows,
      is_first_query := false,
      target_rows := -1,
      target_last_updated := now,
      target_is_estimated := false }

/-- The "mark every record updating" prologue of the exact target pass
(`src/app.py` lines 1579-1583). -/
def markTargetUpdating (ts : List TableInfo) : List TableInfo :=
  ts.map (fun t => if t.target_updating then t else { t with target_updating := true })

/-- The exact target pass over one schema's batch, completing normally
(no stop signal, connection established): mark all records updating, then
process them one by one. -/
def updateTargetExactPass (o : Str → Option Nat) (now : Nat)
    (ts : List TableInfo) : List TableInfo :=
  (markTargetUpdating ts).map (updateTargetExactStep o now)

/-- One per-record step of the exact-COUNT source pass of
`MonitorApp._update_single_schema_source` (`src/app.py` lines 1352-1433):
the new source count is accumulated over the record's `source_tables`, a
table whose count query raises contributing nothing (`continue`); then the
count is stored, the record marked precise, the updating flag cleared, and
the record paused when now consistent.  (`previous_source_rows` and
`is_first_query` are not touched on this path, as in the code.) -/
def updateSourceExactStep (o : Str → Option Nat) (now : Nat) (t : TableInfo) : TableInfo :=
  let temp : Int := t.source_tables.foldl
    (fun acc nm => match o nm with
      | some c => acc + (c : Int)
      | none => acc) 0
  let t1 := { t with
    source_rows := temp,
    source_last_updated := now,
    source_updating := false,
    source_is_estimated := false }
  pauseIfConsistent t1

/-- The "mark every record updating" prologue of the exact source pass
(`src/app.py` lines 1354-1357). -/
def markSourceUpdating (ts : List TableInfo) : List TableInfo :=
  ts.map (fun t => if t.source_updating then t else { t with source_updating := true })

/-- The exact source pass over one schema's batch, completing normally. -/
def updateSourceExactPass (o : Str → Option Nat) (now : Nat)
    (ts : List TableInfo) : List TableInfo :=
  (markSourceUpdating ts).map (updateSourceExactStep o now)

/-- The schema-wide exception cleanup of
`MonitorApp._update_single_schema_source_mysql` (`src/cdc_monitor.py` lines
1034-1040): for every record still marked `source_updating`, the handler
assigns `target_updating = False` (as written in the code — not
`source_updating`). -/
def cdcSourceAbortCleanup (ts : List CdcTableInfo) : List CdcTableInfo :=
  ts.map (fun t => if t.source_updating then { t with target_updating := false } else t)

/-- A concrete app.py record for the C2 failing input. -/
def c2rec : TableInfo :=
  { schema_name := "db".data, target_table_name := "t".data,
    target_rows := 5, source_rows := 5 }

/-- A concrete cdc_monitor.py record, already mid-poll, for the C2 failing
input. -/
def c2crec : CdcTableInfo :=
  { schema_name := "db".data, target_table_name := "t".data, source_updating := true }

/-- Spec-side per-record source count: the sum of the oracle's counts over the
record's source tables, an absent table contributing 0. -/
def specSourceSum (o : Str → Option Nat) (t : TableInfo) : Int :=
  ((t.source_tables.map (fun nm => ((o nm).getD 0 : Int))).sum)

/-- A concrete record for the C8 counterexample: not paused, target ahead of
source, one source table. -/
def c8rec : TableInfo :=
  { schema_name := "db".data, target_table_name := "orders".data,
    target_rows := 7, source_rows := 0, source_tables := ["orders".data] }

/-- ASCII decimal digit: the model of the regex class `\d`. -/
def isDigitC (c : Char) : Bool := '0' ≤ c && c ≤ '9'

/-- Hex digit: the regex class `[0-9a-fA-F]`. -/
def isHexC (c : Char) : Bool :=
  ('0' ≤ c && c ≤ '9') || ('a' ≤ c && c ≤ 'f') || ('A' ≤ c && c ≤ 'F')

/-- Consume exactly `n` characters satisfying `p` from the front of `t`. -/
def chunk (p : Char → Bool) (n : Nat) (t : Str) : Option Str :=
  if (t.take n).length = n ∧ (t.take n).all p = true then some (t.drop n) else none

/-- Consume one literal separator character. -/
def sepC (c : Char) : Str → Option Str
  | d :: rest => if d = c then some rest else none
  | [] => none

/-- Tail shape of regex `_\d{9}_\d{4}$` (rule 2a of
`SyncProperties.get_target_table_name`, `src/app.py` lines 112-114). -/
def num9yearChain (t : Str) : Option Str :=
  (sepC '_' t).bind (chunk isDigitC 9) |>.bind (sepC '_') |>.bind (chunk isDigitC 4)

/-- Tail shape of pattern 1 of `_extract_table_name_from_uuid`
(`src/app.py` line 146): `_[hex]{8}_[hex]{4}_[hex]{4}_[hex]{4}_[hex]{12}$`. -/
def p1chain (t : Str) : Option Str :=
  (sepC '_' t).bind (chunk isHexC 8) |>.bind (sepC '_') |>.bind (chunk isHexC 4)
    |>.bind (sepC '_') |>.bind (chunk isHexC 4) |>.bind (sepC '_') |>.bind (chunk isHexC 4)
    |>.bind (sepC '_') |>.bind (chunk isHexC 12)

/-- Tail shape of pattern 2 (`src/app.py` line 152): hyphen-separated UUID. -/
def p2chain (t : Str) : Option Str :=
  (sepC '_' t).bind (chunk isHexC 8) |>.bind (sepC '-') |>.bind (chunk isHexC 4)
    |>.bind (sepC '-') |>.bind (chunk isHexC 4) |>.bind (sepC '-') |>.bind (chunk isHexC 4)
    |>.bind (sepC '-') |>.bind (chunk isHexC 12)

/-- Tail shape of pattern 3 (`src/app.py` line 158): pattern 1 followed by
`_\d{4}`. -/
def p3chain (t : Str) : Option Str :=
  (p1chain t).bind (sepC '_') |>.bind (chunk isDigitC 4)

/-- `re.sub(tail-pattern$, '', s)` for a fixed-length tail pattern: Python's
`$` matches at the end of the string or just before a trailing newline, so
the matched span ends at `s.length` or (when `s` ends in a newline) at
`s.length - 1`; the sub removes the span and keeps the newline.  `none` when
the pattern matches at neither position. -/
def subTail (chain : Str → Option Str) (len : Nat) (s : Str) : Option Str :=
  if chain (s.drop (s.length - len)) = some [] then
    some (s.take (s.length - len))
  else if chain (s.drop (s.length - (len + 1))) = some ['\n'] then
    some (s.take (s.length - (len + 1)) ++ ['\n'])
  else none

/-- `re.match(r'.*_\d{9}_\d{4}$', s)` (rule 2a's guard, `src/app.py` line
113): a `_\d{9}_\d{4}` tail ending at the end of the string or just before a
trailing newline, preceded by a newline-free prefix (`.` does not match a
newline). -/
abbrev rule2aMatch (s : Str) : Prop :=
  (num9yearChain (s.drop (s.length - 15)) = some []
      ∧ (s.take (s.length - 15)).all (fun c => !(c == '\n')) = true)
  ∨ (num9yearChain (s.drop (s.length - 16)) = some ['\n']
      ∧ (s.take (s.length - 16)).all (fun c => !(c == '\n')) = true)

/-- `SyncProperties._is_numeric_suffix` (`src/app.py` lines 126-131):
`re.match(r'^\d{9}$', s)` on a non-blank string — `$` also matches before a
trailing newline, so nine digits optionally followed by one newline. -/
def SyncProperties.is_numeric_suffix (s : Str) : Bool :=
  if s = [] ∨ ∀ c ∈ s, c.isWhitespace = true then false
  else (s.length == 9 && s.all isDigitC)
    || (s.length == 10 && (s.take 9).all isDigitC && s.drop 9 == ['\n'])

/-- Python `str.rfind('_')`: the index of the last underscore, `none` when
absent. -/
def rfindU : Str → Option Nat
  | [] => none
  | c :: rest =>
    match rfindU rest with
    | some j => some (j + 1)
    | none => if c = '_' then some 0 else none

/-- Python `str.split('_')` (empty segments kept, `""` ↦ `[""]`). -/
def splitU : Str → List Str
  | [] => [[]]
  | c :: rest =>
    let r := splitU rest
    if c = '_' then [] :: r
    else
      match r with
      | [] => [[c]]
      | p :: ps => (c :: p) :: ps

/-- Python `'_'.join(...)`. -/
def joinU : List Str → Str
  | [] => []
  | [p] => p
  | p :: ps => p ++ '_' :: joinU ps

/-- Strip `-` and `_`: the `re.sub(r'[-_]', '', ...)` of pattern 4
(`src/app.py` line 168). -/
def cleanChars (t : Str) : Str :=
  t.filter (fun c => !(c == '-' || c == '_'))

/-- The right-to-left scan of pattern 4 of `_extract_table_name_from_uuid`
(`src/app.py` lines 162-175): for `i` from `parts.length - 1` down to 1, if
`'_'.join(parts[i:])` stripped of `-`/`_` is exactly 32 hex characters,
answer `i`; break early once the candidate exceeds 32 characters. -/
def scanUuid (parts : List Str) : Nat → Option Nat
  | 0 => none
  | i + 1 =>
    let clean := cleanChars (joinU (parts.drop (i + 1)))
    if clean.length = 32 ∧ clean.all isHexC = true then some (i + 1)
    else if 32 < clean.length then none
    else scanUuid parts i

/-- `SyncProperties._extract_table_name_from_uuid` (`src/app.py` lines
133-177): try the three anchored UUID tail shapes, then the generic
32-hex-characters scan; unchanged when nothing matches. -/
def SyncProperties.extract_table_name_from_uuid (s : Str) : Str :=
  if s = [] ∨ '_' ∉ s then s
  else match subTail p1chain 37 s with
  | some r => r
  | none => match subTail p2chain 37 s with
  | some r => r
  | none => match subTail p3chain 42 s with
  | some r => r
  | none =>
    let parts := splitU s
    if 2 ≤ parts.length then
      match scanUuid parts (parts.length - 1) with
      | some i => joinU (parts.take i)
      | none => s
    else s

/-- `SyncProperties.get_target_table_name` (`src/app.py` lines 88-124):
blank or underscore-free names unchanged; then the `_runtime` rule, the
9-digit rule, the `_\d{9}_\d{4}` rule, and finally the UUID rules. -/
def SyncProperties.get_target_table_name (s : Str) : Str :=
  if s = [] ∨ ∀ c ∈ s, c.isWhitespace = true then s
  else if '_' ∉ s then s
  else if "_runtime".data <:+ s then s.take (s.length - 8)
  else
    match rfindU s with
    | some idx =>
      if 0 < idx ∧ SyncProperties.is_numeric_suffix (s.drop (idx + 1)) = true then
        s.take idx
      else if rule2aMatch s then (subTail num9yearChain 15 s).getD s
      else SyncProperties.extract_table_name_from_uuid s
    | none =>
      if rule2aMatch s then (subTail num9yearChain 15 s).getD s
      else SyncProperties.extract_table_name_from_uuid s

/-- The reverse-mapping block of `MonitorApp.initialize_tables_from_target`
(`src/app.py` lines 1071-1089): start from the direct name match, add every
source table whose mapped target equals the target name (skipping
duplicates), and fall back to the target name itself when nothing matched. -/
def resolveSourceNames (targetName : Str) (sourceNames : List Str) : List Str :=
  let l1 := if targetName ∈ sourceNames then [targetName] else []
  let l2 := sourceNames.foldl
    (fun acc s =>
      if SyncProperties.get_target_table_name s = targetName ∧ s ∉ acc then acc ++ [s]
      else acc) l1
  if l2 = [] then [targetName] else l2

/-- C1: for every TableInfo whose two counts are both different from -1,
`data_diff = 0` iff `is_consistent`; and whenever either count is -1,
`data_diff = 0`. -/
theorem C1_diff_iff_consistent :
    ∀ t : TableInfo,
      (t.target_rows ≠ -1 → t.source_rows ≠ -1 →
        (t.data_diff = 0 ↔ t.is_consistent = true))
      ∧ ((t.target_rows = -1 ∨ t.source_rows = -1) → t.data_diff = 0) := by
  intro t
  constructor
  · intro h1 h2
    unfold TableInfo.data_diff TableInfo.is_consistent
    rw [if_neg (by push_neg; exact ⟨h1, h2⟩)]
    rw [sub_eq_zero, beq_iff_eq]
  · intro h
    unfold TableInfo.data_diff
    rw [if_pos h]

/-- C1 witness: evaluated on a concrete consistent error-free record. -/
theorem C1_diff_iff_consistent_witness :
    (appRecOf 5 5).data_diff = 0 :=
  ((C1_diff_iff_consistent (appRecOf 5 5)).1 (by decide) (by decide)).mpr (by decide)

/-- C9 counterexample (negation of the claim): there is NO pair of counts on
which the plain-equality variant and the 0/0-special-case variant disagree —
the `0 == 0` special case is subsumed by plain equality. -/
theorem C9_variants_never_disagree :
    ¬ ∃ tr sr : Int, (appRecOf tr sr).is_consistent ≠ (cdcRecOf tr sr).is_consistent := by
  rintro ⟨tr, sr, h⟩
  apply h
  unfold TableInfo.is_consistent CdcTableInfo.is_consistent appRecOf cdcRecOf
  simp only
  by_cases h0 : tr == 0 && sr == 0
  · rw [if_pos h0]
    have := And.intro (eq_of_beq (Bool.and_elim_left h0)) (eq_of_beq (Bool.and_elim_right h0))
    rw [this.1, this.2]
    decide
  · rw [if_neg h0]

/-- C9 amended: the two `is_consistent` variants found in the source are
extensionally equal as functions of the two counts (the special case
`target == 0 and source == 0` already implies plain equality). -/
theorem C9_variants_agree :
    ∀ tr sr : Int, (appRecOf tr sr).is_consistent = (cdcRecOf tr sr).is_consistent := by
  intro tr sr
  unfold TableInfo.is_consistent CdcTableInfo.is_consistent appRecOf cdcRecOf
  simp only
  by_cases h0 : tr == 0 && sr == 0
  · rw [if_pos h0]
    have := And.intro (eq_of_beq (Bool.and_elim_left h0)) (eq_of_beq (Bool.and_elim_right h0))
    rw [this.1, this.2]
    decide
  · rw [if_neg h0]

/-- C3: a consistent-and-paused record is never in the set refresh_data polls;
an inconsistent record in the table list is always in that set, whatever its
pause flag. -/
theorem C3_pause_eligibility :
    ∀ (ts : List TableInfo) (t : TableInfo),
      (t.is_consistent = true → t.pause_auto_refresh = true → t ∉ eligibleTables ts)
      ∧ (t.is_consistent = false → t ∈ ts → t ∈ eligibleTables ts) := by
  intro ts t
  constructor
  · intro hc hp hmem
    have := (List.mem_filter.mp hmem).2
    rw [hc, hp] at this
    simp at this
  · intro hc hmem
    exact List.mem_filter.mpr ⟨hmem, by rw [hc]; simp⟩

/-- C3 witness: a concrete consistent paused record is excluded, and a
concrete inconsistent paused record is included. -/
theorem C3_pause_eligibility_witness :
    ({ appRecOf 3 4 with pause_auto_refresh := true }
        ∈ eligibleTables [{ appRecOf 3 4 with pause_auto_refresh := true }])
    ∧ ({ appRecOf 3 3 with pause_auto_refresh := true }
        ∉ eligibleTables [{ appRecOf 3 3 with pause_auto_refresh := true }]) :=
  ⟨(C3_pause_eligibility [{ appRecOf 3 4 with pause_auto_refresh := true }]
      { appRecOf 3 4 with pause_auto_refresh := true }).2 (by decide) (by decide),
   (C3_pause_eligibility [{ appRecOf 3 3 with pause_auto_refresh := true }]
      { appRecOf 3 3 with pause_auto_refresh := true }).1 (by decide) (by decide)⟩

/-- C7 counterexample: invoking the manual refresh on `c7state` does NOT poll
the source side (the pass it triggers is still gated by
`target_iteration % source_update_interval`), contradicting the claimed
unconditional both-sides pass. (The target side is polled and the pause
flags are indeed cleared.) -/
theorem C7_manual_refresh_gated :
    (action_refresh c7state).2.2 = false
    ∧ (action_refresh c7state).2.1 = true
    ∧ (action_refresh c7state).1.tables.all (fun t => !t.pause_auto_refresh) = true := by
  decide

/-- C7 amended: the manual refresh command clears every record's
`pause_auto_refresh` flag and immediately triggers a refresh pass in which
(when the monitor is not stopped or globally paused and some table exists)
the target side is polled unconditionally, but the source side is polled
exactly when the incremented target iteration counter is divisible by
`source_update_interval`. -/
theorem C7_manual_refresh :
    ∀ st : SchedState,
      st.stop_flag = false → st.is_paused = false → st.tables ≠ [] →
      ((action_refresh st).1.tables.all (fun t => !t.pause_auto_refresh) = true)
      ∧ (action_refresh st).2.1 = true
      ∧ (action_refresh st).2.2
          = ((st.target_iteration + 1) % st.source_update_interval == 0) := by
  intro st hstop hpause hne
  have hclear : ∀ (ts : List TableInfo),
      (ts.map (fun t => { t with pause_auto_refresh := false })).all
        (fun t => !t.pause_auto_refresh) = true := by
    intro ts
    induction ts with
    | nil => rfl
    | cons a l ih => simp [ih]
  have helig : eligibleTables (st.tables.map (fun t => { t with pause_auto_refresh := false }))
      = st.tables.map (fun t => { t with pause_auto_refresh := false }) := by
    apply List.filter_eq_self.mpr
    intro a ha
    rcases List.mem_map.mp ha with ⟨b, _, rfl⟩
    simp [TableInfo.is_consistent]
  have hne2 : eligibleTables (st.tables.map (fun t => { t with pause_auto_refresh := false }))
      ≠ [] := by
    rw [helig]
    simpa using hne
  unfold action_refresh refresh_data
  rw [hstop, hpause]
  simp only [Bool.or_false, Bool.false_or, if_neg hne2]
  refine ⟨?_, rfl, rfl⟩
  by_cases hm : (st.target_iteration + 1) % st.source_update_interval == 0 <;>
    simp [hm, hclear]

/-- C7 amended witness: the amended behaviour evaluated at `c7state`. -/
theorem C7_manual_refresh_witness :
    ((action_refresh c7state).1.tables.all (fun t => !t.pause_auto_refresh) = true)
    ∧ (action_refresh c7state).2.1 = true
    ∧ (action_refresh c7state).2.2 = ((0 + 1) % 5 == 0) :=
  C7_manual_refresh c7state (by decide) (by decide) (by decide)

/-- C2 (code bug, evaluated at the failing inputs): after an exact target
pass in which the record's `COUNT(*)` query raises, `src/app.py` leaves the
record's `target_updating` flag stuck `true` (the per-table except branch
never clears it); and the exception cleanup of `src/cdc_monitor.py` leaves
`source_updating` stuck `true` because it clears `target_updating` instead. -/
theorem C2_updating_flag_stuck :
    ((updateTargetExactPass (fun _ => none) 1 [c2rec]).map (fun t => t.target_updating)
        = [true])
    ∧ ((cdcSourceAbortCleanup [c2crec]).map (fun t => t.source_updating) = [true]) :=
  ⟨rfl, rfl⟩

theorem pauseIfConsistent_pause (t1 : TableInfo) :
    (pauseIfConsistent t1).pause_auto_refresh
      = (t1.pause_auto_refresh || t1.is_consistent) := by
  unfold pauseIfConsistent
  split
  · rename_i hc
    rw [hc]
    simp
  · rename_i hc
    rw [Bool.not_eq_true] at hc
    rw [hc]
    simp

theorem pauseIfConsistent_consistent (t1 : TableInfo) :
    (pauseIfConsistent t1).is_consistent = t1.is_consistent := by
  unfold pauseIfConsistent
  split
  · rfl
  · rfl

theorem pauseIfConsistent_source_rows (t1 : TableInfo) :
    (pauseIfConsistent t1).source_rows = t1.source_rows := by
  unfold pauseIfConsistent
  split
  · rfl
  · rfl

theorem foldl_count_eq_sum (o : Str → Option Nat) :
    ∀ (l : List Str) (acc : Int),
      (l.foldl (fun acc nm => match o nm with
        | some c => acc + (c : Int)
        | none => acc) acc)
      = acc + (l.map (fun nm => ((o nm).getD 0 : Int))).sum := by
  intro l
  induction l with
  | nil =>
    intro acc
    simp
  | cons nm l ih =>
    intro acc
    rw [List.foldl_cons, List.map_cons, List.sum_cons, ih]
    cases h : o nm
    · simp [h]
    · simp [h]
      ring

/-- C4: after the exact source pass completes for a batch, every record's
`source_rows` equals the sum of the counts obtained for its `source_tables`
(a failing table contributing 0), and no record is turned into the -1 error
state by this path. -/
theorem C4_source_row_sum :
    ∀ (ts : List TableInfo) (o : Str → Option Nat) (now : Nat),
      ((updateSourceExactPass o now ts).map (fun t => t.source_rows)
        = ts.map (specSourceSum o))
      ∧ ((updateSourceExactPass o now ts).all (fun t => t.source_rows != -1) = true) := by
  intro ts o now
  have hrow : ∀ t : TableInfo,
      (updateSourceExactStep o now t).source_rows = specSourceSum o t := by
    intro t
    unfold updateSourceExactStep
    dsimp only
    rw [pauseIfConsistent_source_rows]
    rw [show ({ t with
      source_rows := t.source_tables.foldl (fun acc nm => match o nm with
        | some c => acc + (c : Int)
        | none => acc) 0,
      source_last_updated := now,
      source_updating := false,
      source_is_estimated := false } : TableInfo).source_rows
      = t.source_tables.foldl (fun acc nm => match o nm with
        | some c => acc + (c : Int)
        | none => acc) 0 from rfl]
    rw [foldl_count_eq_sum o t.source_tables 0, zero_add]
    rfl
  have hnn : ∀ t : TableInfo,
      ((updateSourceExactStep o now t).source_rows != -1) = true := by
    intro t
    rw [hrow]
    unfold specSourceSum
    rw [bne_iff_ne]
    intro hcontra
    have hge : (0 : Int) ≤ (t.source_tables.map (fun nm => ((o nm).getD 0 : Int))).sum := by
      apply List.sum_nonneg
      intro x hx
      rcases List.mem_map.mp hx with ⟨nm, _, rfl⟩
      exact Int.ofNat_nonneg _
    omega
  constructor
  · unfold updateSourceExactPass markSourceUpdating
    rw [List.map_map, List.map_map]
    apply List.map_congr_left
    intro t _
    simp only [Function.comp]
    by_cases hu : t.source_updating
    · rw [if_pos hu]
      exact hrow t
    · rw [if_neg hu, hrow]
      rfl
  · rw [List.all_eq_true]
    intro t ht
    rcases List.mem_map.mp ht with ⟨t0, _, rfl⟩
    exact hnn t0

/-- C8 counterexample: a source-side exact update that leaves the record
consistent also sets `pause_auto_refresh` (src/app.py lines 1429-1432) —
the flag is not set only by the target-side path. -/
theorem C8_source_also_sets_pause :
    c8rec.pause_auto_refresh = false
    ∧ (updateSourceExactStep (fun _ => some 7) 1 c8rec).pause_auto_refresh = true := by
  exact ⟨rfl, rfl⟩

/-- C8 amended: in the exact polling paths, `pause_auto_refresh` is set to
true exactly when an exact-mode update on either side (target or source)
leaves the record consistent; a failed target query leaves the flag as it
was, and the flag is never cleared by these paths. -/
theorem C8_pause_set_policy :
    ∀ (t : TableInfo) (o : Str → Option Nat) (now : Nat),
      ((updateSourceExactStep o now t).pause_auto_refresh
        = (t.pause_auto_refresh || (updateSourceExactStep o now t).is_consistent))
      ∧ ((updateTargetExactStep o now t).pause_auto_refresh
        = (t.pause_auto_refresh ||
            (match o t.target_table_name with
             | some _ => (updateTargetExactStep o now t).is_consistent
             | none => false))) := by
  intro t o now
  constructor
  · unfold updateSourceExactStep
    dsimp only
    rw [pauseIfConsistent_pause, pauseIfConsistent_consistent]
  · cases ho : o t.target_table_name with
    | some n =>
      unfold updateTargetExactStep
      rw [ho]
      dsimp only
      rw [pauseIfConsistent_pause, pauseIfConsistent_consistent]
    | none =>
      unfold updateTargetExactStep
      rw [ho]
      simp

theorem preRefl (l : Str) : l <+: l := ⟨[], List.append_nil _⟩

theorem nilPre (l : Str) : [] <+: l := ⟨l, rfl⟩

theorem preAppend (a b : Str) : a <+: a ++ b := ⟨b, rfl⟩

theorem takePre (n : Nat) (s : Str) : s.take n <+: s := List.take_prefix n s

theorem preAppendLeft (p : Str) {a b : Str} (h : a <+: b) : p ++ a <+: p ++ b := by
  obtain ⟨t, rfl⟩ := h
  exact ⟨t, List.append_assoc p a t⟩

theorem joinU_cons (p : Str) (ps : List Str) (h : ps ≠ []) :
    joinU (p :: ps) = p ++ '_' :: joinU ps := by
  cases ps with
  | nil => exact absurd rfl h
  | cons q ps' => rfl

theorem joinU_take_pre : ∀ (ps : List Str) (i : Nat), joinU (ps.take i) <+: joinU ps := by
  intro ps
  induction ps with
  | nil =>
    intro i
    simp [List.take_nil]
  | cons p ps ih =>
    intro i
    cases i with
    | zero =>
      rw [List.take_zero]
      exact nilPre _
    | succ j =>
      rw [List.take_succ_cons]
      cases hps : ps with
      | nil =>
        simp [List.take_nil]
      | cons q ps' =>
        rw [hps] at ih
        cases j with
        | zero =>
          rw [List.take_zero, joinU_cons p (q :: ps') (List.cons_ne_nil q ps')]
          exact preAppend p _
        | succ k =>
          have htk : List.take (k + 1) (q :: ps') ≠ [] := by
            rw [List.take_succ_cons]
            exact List.cons_ne_nil q _
          rw [joinU_cons p (List.take (k + 1) (q :: ps')) htk,
            joinU_cons p (q :: ps') (List.cons_ne_nil q ps')]
          have step : '_' :: joinU (List.take (k + 1) (q :: ps'))
              <+: '_' :: joinU (q :: ps') := by
            have h2 := preAppendLeft ['_'] (ih (k + 1))
            simpa using h2
          exact preAppendLeft p step

theorem splitU_ne_nil : ∀ s : Str, splitU s ≠ [] := by
  intro s
  cases s with
  | nil => simp [splitU]
  | cons c rest =>
    simp only [splitU]
    split
    · simp
    · split
      · simp
      · simp

theorem joinU_splitU : ∀ s : Str, joinU (splitU s) = s := by
  intro s
  induction s with
  | nil => rfl
  | cons c rest ih =>
    simp only [splitU]
    split
    · rename_i hc
      subst hc
      cases hr : splitU rest with
      | nil => exact absurd hr (splitU_ne_nil rest)
      | cons p ps =>
        rw [joinU_cons [] (p :: ps) (List.cons_ne_nil p ps), List.nil_append, ← hr, ih]
    · rename_i hc
      cases hr : splitU rest with
      | nil => exact absurd hr (splitU_ne_nil rest)
      | cons p ps =>
        cases ps with
        | nil =>
          show joinU [c :: p] = c :: rest
          have : joinU [p] = rest := by rw [← hr]; exact ih
          show c :: p = c :: rest
          rw [show p = joinU [p] from rfl, this]
        | cons q ps' =>
          rw [joinU_cons (c :: p) (q :: ps') (List.cons_ne_nil q ps')]
          have : joinU (p :: q :: ps') = rest := by rw [← hr]; exact ih
          rw [joinU_cons p (q :: ps') (List.cons_ne_nil q ps')] at this
          rw [← this]
          rfl

theorem obind_some (x : Str) (g : Str → Option Str) : (some x).bind g = g x := rfl

theorem sepC_cons (c : Char) (r : Str) : sepC c (c :: r) = some r := by
  simp [sepC]

theorem sepC_inv {c : Char} {t r : Str} (h : sepC c t = some r) : t = c :: r := by
  cases t with
  | nil => simp [sepC] at h
  | cons d rest =>
    simp only [sepC] at h
    split at h
    · rename_i hd
      injection h with h2
      rw [hd, h2]
    · simp at h

theorem chunk_pre (p : Char → Bool) {n : Nat} {a : Str} (r : Str)
    (h1 : a.length = n) (h2 : a.all p = true) :
    chunk p n (a ++ r) = some r := by
  unfold chunk
  rw [List.take_left' h1, List.drop_left' h1, if_pos ⟨h1, h2⟩]

theorem sepC_tail (c : Char) : ∀ (t r : Str), sepC c t = some r → r <:+ t := by
  intro t r h
  rw [sepC_inv h]
  exact ⟨[c], rfl⟩

theorem chunk_tail (p : Char → Bool) (n : Nat) :
    ∀ (t r : Str), chunk p n t = some r → r <:+ t := by
  intro t r h
  unfold chunk at h
  split at h
  · injection h with h2
    rw [← h2]
    exact List.drop_suffix n t
  · simp at h

theorem bind_tail {t r : Str} {o : Option Str} {g : Str → Option Str}
    (ho : ∀ r', o = some r' → r' <:+ t)
    (hg : ∀ t' r', g t' = some r' → r' <:+ t')
    (h : o.bind g = some r) : r <:+ t := by
  cases o with
  | none => simp at h
  | some t1 =>
    rw [obind_some] at h
    exact (hg t1 r h).trans (ho t1 rfl)

theorem num9yearChain_tail : ∀ (t r : Str), num9yearChain t = some r → r <:+ t := by
  intro t r h
  unfold num9yearChain at h
  refine bind_tail (fun r1 h1 => ?_) (chunk_tail isDigitC 4) h
  refine bind_tail (fun r2 h2 => ?_) (sepC_tail '_') h1
  exact bind_tail (sepC_tail '_' t) (chunk_tail isDigitC 9) h2

theorem p1chain_tail : ∀ (t r : Str), p1chain t = some r → r <:+ t := by
  intro t r h
  unfold p1chain at h
  refine bind_tail (fun r1 h1 => ?_) (chunk_tail isHexC 12) h
  refine bind_tail (fun r2 h2 => ?_) (sepC_tail '_') h1
  refine bind_tail (fun r3 h3 => ?_) (chunk_tail isHexC 4) h2
  refine bind_tail (fun r4 h4 => ?_) (sepC_tail '_') h3
  refine bind_tail (fun r5 h5 => ?_) (chunk_tail isHexC 4) h4
  refine bind_tail (fun r6 h6 => ?_) (sepC_tail '_') h5
  refine bind_tail (fun r7 h7 => ?_) (chunk_tail isHexC 4) h6
  refine bind_tail (fun r8 h8 => ?_) (sepC_tail '_') h7
  exact bind_tail (sepC_tail '_' t) (chunk_tail isHexC 8) h8

theorem p2chain_tail : ∀ (t r : Str), p2chain t = some r → r <:+ t := by
  intro t r h
  unfold p2chain at h
  refine bind_tail (fun r1 h1 => ?_) (chunk_tail isHexC 12) h
  refine bind_tail (fun r2 h2 => ?_) (sepC_tail '-') h1
  refine bind_tail (fun r3 h3 => ?_) (chunk_tail isHexC 4) h2
  refine bind_tail (fun r4 h4 => ?_) (sepC_tail '-') h3
  refine bind_tail (fun r5 h5 => ?_) (chunk_tail isHexC 4) h4
  refine bind_tail (fun r6 h6 => ?_) (sepC_tail '-') h5
  refine bind_tail (fun r7 h7 => ?_) (chunk_tail isHexC 4) h6
  refine bind_tail (fun r8 h8 => ?_) (sepC_tail '-') h7
  exact bind_tail (sepC_tail '_' t) (chunk_tail isHexC 8) h8

theorem p3chain_tail : ∀ (t r : Str), p3chain t = some r → r <:+ t := by
  intro t r h
  unfold p3chain at h
  refine bind_tail (fun r1 h1 => ?_) (chunk_tail isDigitC 4) h
  exact bind_tail (p1chain_tail t) (sepC_tail '_') h1

theorem num9yearChain_startU {t r : Str} (h : num9yearChain t = some r) :
    ∃ rest, t = '_' :: rest := by
  unfold num9yearChain at h
  cases hs : sepC '_' t with
  | none => rw [hs] at h; simp at h
  | some t1 => exact ⟨t1, sepC_inv hs⟩

theorem p1chain_startU {t r : Str} (h : p1chain t = some r) :
    ∃ rest, t = '_' :: rest := by
  unfold p1chain at h
  cases hs : sepC '_' t with
  | none => rw [hs] at h; simp at h
  | some t1 => exact ⟨t1, sepC_inv hs⟩

theorem p2chain_startU {t r : Str} (h : p2chain t = some r) :
    ∃ rest, t = '_' :: rest := by
  unfold p2chain at h
  cases hs : sepC '_' t with
  | none => rw [hs] at h; simp at h
  | some t1 => exact ⟨t1, sepC_inv hs⟩

theorem drop_add_left (A B : Str) (k : Nat) : (A ++ B).drop (A.length + k) = B.drop k := by
  induction A with
  | nil => simp
  | cons a A ih =>
    have h1 : (a :: A).length + k = (A.length + k) + 1 := by
      simp [List.length_cons]
      omega
    rw [List.cons_append, h1, List.drop_succ_cons]
    exact ih

theorem suffix_self (w : Str) : w <:+ w := ⟨[], rfl⟩

theorem suffix_append_left (a : Str) {w v : Str} (h : w <:+ v) : w <:+ a ++ v := by
  obtain ⟨pre, rfl⟩ := h
  exact ⟨a ++ pre, by rw [List.append_assoc]⟩

theorem suffix_cons (c : Char) {w v : Str} (h : w <:+ v) : w <:+ c :: v :=
  suffix_append_left [c] h

theorem getLast?_of_suffix {w s : Str} (h : w <:+ s) (hw : w ≠ []) :
    s.getLast? = w.getLast? := by
  obtain ⟨pre, rfl⟩ := h
  rw [List.getLast?_append]
  cases hwl : w.getLast? with
  | none => exact absurd (List.getLast?_eq_none_iff.mp hwl) hw
  | some c => rfl

theorem no_newline_chain {s : Str} {chain : Str → Option Str}
    (htail : ∀ t r, chain t = some r → r <:+ t) (k : Nat)
    (h : chain (s.drop k) = some ['\n']) : s.getLast? = some '\n' := by
  have h1 : (['\n'] : Str) <:+ s := (htail _ _ h).trans (List.drop_suffix k s)
  rw [getLast?_of_suffix h1 (by simp)]
  rfl

theorem subTail_no_newline {chain : Str → Option Str}
    (htail : ∀ t r, chain t = some r → r <:+ t) (len : Nat) (s : Str)
    (hnl : s.getLast? ≠ some '\n') {r : Str}
    (h : subTail chain len s = some r) : r <+: s := by
  unfold subTail at h
  split at h
  · injection h with h2
    rw [← h2]
    exact takePre _ _
  · split at h
    · rename_i hb
      exact absurd (no_newline_chain htail _ hb) hnl
    · simp at h

theorem subTail_none_no_nl {chain : Str → Option Str}
    (htail : ∀ t r, chain t = some r → r <:+ t) {len : Nat} {s : Str}
    (hnl : s.getLast? ≠ some '\n')
    (h1 : ¬ chain (s.drop (s.length - len)) = some []) :
    subTail chain len s = none := by
  unfold subTail
  rw [if_neg h1, if_neg (fun hb => hnl (no_newline_chain htail _ hb))]

theorem getD_subTail_pre (s : Str) (hnl : s.getLast? ≠ some '\n') :
    (subTail num9yearChain 15 s).getD s <+: s := by
  cases h : subTail num9yearChain 15 s with
  | none => exact preRefl s
  | some r => exact subTail_no_newline num9yearChain_tail 15 s hnl h

theorem numeric_false_of_length {d : Str} (h9 : d.length ≠ 9) (h10 : d.length ≠ 10) :
    SyncProperties.is_numeric_suffix d = false := by
  unfold SyncProperties.is_numeric_suffix
  split
  · rfl
  · rw [beq_eq_false_iff_ne.mpr h9, beq_eq_false_iff_ne.mpr h10]
    rfl

theorem not_memU_hex {a : Str} (ha : ∀ c ∈ a, isHexC c = true) : '_' ∉ a := by
  intro h
  exact absurd (ha '_' h) (by decide)

theorem not_memU_digits {a : Str} (ha : ∀ c ∈ a, isDigitC c = true) : '_' ∉ a := by
  intro h
  exact absurd (ha '_' h) (by decide)

theorem not_memU_append {a b : Str} (ha : '_' ∉ a) (hb : '_' ∉ b) : '_' ∉ a ++ b := by
  intro h
  rcases List.mem_append.mp h with h | h
  · exact ha h
  · exact hb h

theorem not_memU_cons {c : Char} {b : Str} (hc : c ≠ '_') (hb : '_' ∉ b) : '_' ∉ c :: b := by
  intro h
  rcases List.mem_cons.mp h with h | h
  · exact hc h.symm
  · exact hb h

theorem runtime_clash {s w : Str} (hw : w <:+ s) (hwlen : 8 ≤ w.length)
    (hX : ∀ c ∈ w, isHexC c = true) (hrt : "_runtime".data <:+ s) : False := by
  have h1 : "_runtime".data <:+ w :=
    List.suffix_of_suffix_length_le hrt hw
      (by rw [show ("_runtime".data).length = 8 from rfl]; exact hwlen)
  have h2 : '_' ∈ w := h1.subset (by decide)
  exact absurd (hX '_' h2) (by decide)

theorem rule2a_no_fire {s A X Y : Str} (hs : s = A ++ (X ++ Y))
    (hX : ∀ c ∈ X, isHexC c = true) (hXlen : 2 < X.length)
    (hlen17 : (X ++ Y).length = 17)
    (hnl : s.getLast? ≠ some '\n') :
    ¬ rule2aMatch s := by
  rintro (⟨h1, _⟩ | ⟨h2, _⟩)
  · obtain ⟨rest, hr⟩ := num9yearChain_startU h1
    have hslen : s.length = A.length + 17 := by
      rw [hs, List.length_append, hlen17]
    have hs2 : s = (A ++ X.take 2) ++ (X.drop 2 ++ Y) := by
      rw [hs, List.append_assoc, ← List.append_assoc (X.take 2), List.take_append_drop]
    have hlen2 : (A ++ X.take 2).length = s.length - 15 := by
      rw [List.length_append, List.length_take, hslen]
      omega
    have hdrop : s.drop (s.length - 15) = X.drop 2 ++ Y := by
      rw [hs2, List.drop_left' ?_]
      rw [← hs2]
      exact hlen2
    rw [hdrop] at hr
    cases hxd : X.drop 2 with
    | nil =>
      have := congrArg List.length hxd
      rw [List.length_drop] at this
      simp at this
      omega
    | cons c cs =>
      rw [hxd, List.cons_append] at hr
      injection hr with hc _
      have hcX : c ∈ X := List.drop_subset 2 X (by rw [hxd]; exact List.mem_cons_self c cs)
      rw [hc] at hcX
      exact absurd (hX '_' hcX) (by decide)
  · exact hnl (no_newline_chain num9yearChain_tail _ h2)

theorem get_target_with_underscore (s : Str) (hmem : '_' ∈ s) :
    SyncProperties.get_target_table_name s
      = (if "_runtime".data <:+ s then s.take (s.length - 8)
        else match rfindU s with
        | some idx =>
          if 0 < idx ∧ SyncProperties.is_numeric_suffix (s.drop (idx + 1)) = true then
            s.take idx
          else if rule2aMatch s then (subTail num9yearChain 15 s).getD s
          else SyncProperties.extract_table_name_from_uuid s
        | none =>
          if rule2aMatch s then (subTail num9yearChain 15 s).getD s
          else SyncProperties.extract_table_name_from_uuid s) := by
  have h1 : ¬ (s = [] ∨ ∀ c ∈ s, c.isWhitespace = true) := by
    rintro (he | hws)
    · rw [he] at hmem
      exact List.not_mem_nil '_' hmem
    · exact absurd (hws '_' hmem) (by decide)
  unfold SyncProperties.get_target_table_name
  rw [if_neg h1, if_neg (fun hno => hno hmem)]


theorem extract_pre (s : Str) (hnl : s.getLast? ≠ some '\n') :
    SyncProperties.extract_table_name_from_uuid s <+: s := by
  unfold SyncProperties.extract_table_name_from_uuid
  split
  · exact preRefl s
  · split
    · rename_i r hr
      exact subTail_no_newline p1chain_tail 37 s hnl hr
    · split
      · rename_i r hr
        exact subTail_no_newline p2chain_tail 37 s hnl hr
      · split
        · rename_i r hr
          exact subTail_no_newline p3chain_tail 42 s hnl hr
        · dsimp only
          split
          · split
            · rename_i i hscan
              have h1 := joinU_take_pre (splitU s) i
              rw [joinU_splitU s] at h1
              exact h1
            · exact preRefl s
          · exact preRefl s

/-- C10 counterexample: on an input with a trailing newline the `$`-anchored
rule 2a strips an internal span (Python's `$` also matches just before a
final newline), so the result is NOT a prefix of the input:
`a_123456789_2018\n` maps to `a\n`. -/
theorem C10_trailing_newline_cex :
    SyncProperties.get_target_table_name "a_123456789_2018\n".data = "a\n".data
    ∧ ¬ (SyncProperties.get_target_table_name "a_123456789_2018\n".data
        <+: "a_123456789_2018\n".data) := by
  decide

/-- C10 amended: for every input that does not end in a newline, every branch
of the name mapping only removes a trailing suffix, so the result is a prefix
of the input; with a trailing newline the `$`-anchored rules can excise a
non-suffix span (keeping the newline), as the counterexample shows. -/
theorem C10_only_strips_tail :
    ∀ s : Str, s.getLast? ≠ some '\n' →
      SyncProperties.get_target_table_name s <+: s := by
  intro s hnl
  unfold SyncProperties.get_target_table_name
  split
  · exact preRefl s
  · split
    · exact preRefl s
    · split
      · exact takePre _ _
      · split
        · split
          · exact takePre _ _
          · split
            · exact getD_subTail_pre s hnl
            · exact extract_pre s hnl
        · split
          · exact getD_subTail_pre s hnl
          · exact extract_pre s hnl

/-- C10 amended witness: evaluated on a newline-free name. -/
theorem C10_only_strips_tail_witness :
    SyncProperties.get_target_table_name "users_runtime".data <+: "users_runtime".data :=
  C10_only_strips_tail "users_runtime".data (by decide)

theorem get_target_no_underscore (s : Str) (h : '_' ∉ s) :
    SyncProperties.get_target_table_name s = s := by
  unfold SyncProperties.get_target_table_name
  split
  · rfl
  · rfl

theorem digit_not_ws (c : Char) (h : isDigitC c = true) : c.isWhitespace = false := by
  cases hws : c.isWhitespace
  · rfl
  · exfalso
    have hc : ((c = ' ' ∨ c = '\t') ∨ c = '\x0d') ∨ c = '\n' := by
      simpa [Char.isWhitespace] using hws
    rcases hc with ((rfl | rfl) | rfl) | rfl <;> exact absurd h (by decide)

theorem rfindU_none (l : Str) (h : '_' ∉ l) : rfindU l = none := by
  induction l with
  | nil => rfl
  | cons c rest ih =>
    have hc : ¬ c = '_' := fun hc => h (by rw [hc]; exact List.mem_cons_self '_' rest)
    have hr : rfindU rest = none := ih (fun hm => h (List.mem_cons_of_mem c hm))
    simp only [rfindU, hr, if_neg hc]

theorem rfindU_append (base d : Str) (hd : '_' ∉ d) :
    rfindU (base ++ '_' :: d) = some base.length := by
  induction base with
  | nil =>
    simp [rfindU, rfindU_none d hd]
  | cons c rest ih =>
    show rfindU (c :: (rest ++ '_' :: d)) = some (rest.length + 1)
    rw [show rfindU (c :: (rest ++ '_' :: d))
        = match rfindU (rest ++ '_' :: d) with
          | some j => some (j + 1)
          | none => if c = '_' then some 0 else none from rfl, ih]

theorem get_target_runtime (base : Str) :
    SyncProperties.get_target_table_name (base ++ "_runtime".data) = base := by
  have hmem : '_' ∈ base ++ "_runtime".data := List.mem_append_right base (by decide)
  have h1 : ¬ (base ++ "_runtime".data = []
      ∨ ∀ c ∈ base ++ "_runtime".data, c.isWhitespace = true) := by
    rintro (he | hws)
    · have hlen := congrArg List.length he
      simp [List.length_append] at hlen
    · exact absurd (hws '_' hmem) (by decide)
  have h2 : ¬ ('_' ∉ base ++ "_runtime".data) := fun hno => hno hmem
  have h3 : "_runtime".data <:+ base ++ "_runtime".data := ⟨base, rfl⟩
  unfold SyncProperties.get_target_table_name
  rw [if_neg h1, if_neg h2, if_pos h3, List.length_append]
  show (base ++ "_runtime".data).take (base.length + 8 - 8) = base
  rw [Nat.add_sub_cancel]
  exact List.take_left base "_runtime".data

theorem get_target_num9 (base d : Str) (hb : base ≠ [])
    (hlen : d.length = 9) (hd : ∀ c ∈ d, isDigitC c = true) :
    SyncProperties.get_target_table_name (base ++ '_' :: d) = base := by
  have hdne : d ≠ [] := by
    intro h0
    rw [h0] at hlen
    simp at hlen
  have hdu : '_' ∉ d := fun hm => absurd (hd '_' hm) (by decide)
  have hmem : '_' ∈ base ++ '_' :: d :=
    List.mem_append_right base (List.mem_cons_self '_' d)
  have h1 : ¬ (base ++ '_' :: d = []
      ∨ ∀ c ∈ base ++ '_' :: d, c.isWhitespace = true) := by
    rintro (he | hws)
    · rw [he] at hmem
      exact List.not_mem_nil '_' hmem
    · exact absurd (hws '_' hmem) (by decide)
  have h2 : ¬ ('_' ∉ base ++ '_' :: d) := fun hno => hno hmem
  have hlast : (base ++ '_' :: d).getLast? = some (d.getLast hdne) := by
    rw [show base ++ '_' :: d = base ++ (['_'] ++ d) from rfl, List.getLast?_append,
      List.getLast?_append, List.getLast?_eq_getLast d hdne]
    rfl
  have h3 : ¬ ("_runtime".data <:+ base ++ '_' :: d) := by
    rintro ⟨t, ht⟩
    have h8 : (base ++ '_' :: d).getLast? = some 'e' := by
      rw [← ht, List.getLast?_append]
      rfl
    rw [hlast] at h8
    have h9 : d.getLast hdne = 'e' := Option.some.inj h8
    have hdig := hd _ (List.getLast_mem hdne)
    rw [h9] at hdig
    exact absurd hdig (by decide)
  have hdrop : (base ++ '_' :: d).drop (base.length + 1) = d := by
    rw [show base ++ '_' :: d = (base ++ ['_']) ++ d from by simp,
      List.drop_left' (by simp)]
  have hnum : SyncProperties.is_numeric_suffix d = true := by
    unfold SyncProperties.is_numeric_suffix
    rw [if_neg]
    · rw [hlen, List.all_eq_true.mpr hd]
      simp
    · rintro (he | hws)
      · exact hdne he
      · have h7 := hws (d.getLast hdne) (List.getLast_mem hdne)
        rw [digit_not_ws _ (hd _ (List.getLast_mem hdne))] at h7
        exact Bool.false_ne_true h7
  have hcond : 0 < base.length
      ∧ SyncProperties.is_numeric_suffix
          ((base ++ '_' :: d).drop (base.length + 1)) = true := by
    constructor
    · exact List.length_pos.mpr hb
    · rw [hdrop]
      exact hnum
  unfold SyncProperties.get_target_table_name
  rw [if_neg h1, if_neg h2, if_neg h3, rfindU_append base d hdu]
  show (if 0 < base.length
        ∧ SyncProperties.is_numeric_suffix
            ((base ++ '_' :: d).drop (base.length + 1)) = true
      then (base ++ '_' :: d).take base.length
      else if rule2aMatch (base ++ '_' :: d)
      then (subTail num9yearChain 15 (base ++ '_' :: d)).getD (base ++ '_' :: d)
      else SyncProperties.extract_table_name_from_uuid (base ++ '_' :: d)) = base
  rw [if_pos hcond]
  exact List.take_left' rfl

theorem chunk_exact (p : Char → Bool) {n : Nat} {a : Str}
    (h1 : a.length = n) (h2 : a.all p = true) :
    chunk p n a = some [] := by
  have h := chunk_pre p [] h1 h2
  rwa [List.append_nil] at h

theorem p1chain_run (h8 h4a h4b h4c h12 rest : Str)
    (l8 : h8.length = 8) (l4a : h4a.length = 4) (l4b : h4b.length = 4)
    (l4c : h4c.length = 4) (l12 : h12.length = 12)
    (a8 : h8.all isHexC = true) (a4a : h4a.all isHexC = true)
    (a4b : h4b.all isHexC = true) (a4c : h4c.all isHexC = true)
    (a12 : h12.all isHexC = true) :
    p1chain ('_' :: (h8 ++ '_' :: (h4a ++ '_' :: (h4b ++ '_' :: (h4c ++ '_' :: (h12 ++ rest))))))
      = some rest := by
  unfold p1chain
  rw [sepC_cons, obind_some, chunk_pre isHexC _ l8 a8, obind_some, sepC_cons,
    obind_some, chunk_pre isHexC _ l4a a4a, obind_some, sepC_cons,
    obind_some, chunk_pre isHexC _ l4b a4b, obind_some, sepC_cons,
    obind_some, chunk_pre isHexC _ l4c a4c, obind_some, sepC_cons,
    obind_some, chunk_pre isHexC _ l12 a12]

theorem p2chain_run (h8 h4a h4b h4c h12 rest : Str)
    (l8 : h8.length = 8) (l4a : h4a.length = 4) (l4b : h4b.length = 4)
    (l4c : h4c.length = 4) (l12 : h12.length = 12)
    (a8 : h8.all isHexC = true) (a4a : h4a.all isHexC = true)
    (a4b : h4b.all isHexC = true) (a4c : h4c.all isHexC = true)
    (a12 : h12.all isHexC = true) :
    p2chain ('_' :: (h8 ++ '-' :: (h4a ++ '-' :: (h4b ++ '-' :: (h4c ++ '-' :: (h12 ++ rest))))))
      = some rest := by
  unfold p2chain
  rw [sepC_cons, obind_some, chunk_pre isHexC _ l8 a8, obind_some, sepC_cons,
    obind_some, chunk_pre isHexC _ l4a a4a, obind_some, sepC_cons,
    obind_some, chunk_pre isHexC _ l4b a4b, obind_some, sepC_cons,
    obind_some, chunk_pre isHexC _ l4c a4c, obind_some, sepC_cons,
    obind_some, chunk_pre isHexC _ l12 a12]

theorem p3chain_run (h8 h4a h4b h4c h12 y4 : Str)
    (l8 : h8.length = 8) (l4a : h4a.length = 4) (l4b : h4b.length = 4)
    (l4c : h4c.length = 4) (l12 : h12.length = 12) (ly : y4.length = 4)
    (a8 : h8.all isHexC = true) (a4a : h4a.all isHexC = true)
    (a4b : h4b.all isHexC = true) (a4c : h4c.all isHexC = true)
    (a12 : h12.all isHexC = true) (ay : y4.all isDigitC = true) :
    p3chain ('_' :: (h8 ++ '_' :: (h4a ++ '_' :: (h4b ++ '_' :: (h4c ++ '_' :: (h12 ++ '_' :: y4))))))
      = some [] := by
  unfold p3chain
  rw [p1chain_run h8 h4a h4b h4c h12 ('_' :: y4) l8 l4a l4b l4c l12 a8 a4a a4b a4c a12,
    obind_some, sepC_cons, obind_some, chunk_exact isDigitC ly ay]

theorem p1chain_stop_hyphen (h8 rest : Str) (l8 : h8.length = 8)
    (a8 : h8.all isHexC = true) :
    p1chain ('_' :: (h8 ++ '-' :: rest)) = none := by
  unfold p1chain
  rw [sepC_cons, obind_some, chunk_pre isHexC _ l8 a8, obind_some,
    show sepC '_' ('-' :: rest) = none from by simp [sepC]]
  rfl

theorem get_target_uuid2 (base h8 h4a h4b h4c h12 : Str)
    (l8 : h8.length = 8) (l4a : h4a.length = 4) (l4b : h4b.length = 4)
    (l4c : h4c.length = 4) (l12 : h12.length = 12)
    (hx8 : ∀ c ∈ h8, isHexC c = true) (hx4a : ∀ c ∈ h4a, isHexC c = true)
    (hx4b : ∀ c ∈ h4b, isHexC c = true) (hx4c : ∀ c ∈ h4c, isHexC c = true)
    (hx12 : ∀ c ∈ h12, isHexC c = true) :
    SyncProperties.get_target_table_name
        (base ++ '_' :: (h8 ++ '-' :: (h4a ++ '-' :: (h4b ++ '-' :: (h4c ++ '-' :: h12)))))
      = base := by
  set d : Str := h8 ++ '-' :: (h4a ++ '-' :: (h4b ++ '-' :: (h4c ++ '-' :: h12))) with hd
  set s : Str := base ++ '_' :: d with hs
  have h12ne : h12 ≠ [] := by
    intro h0
    rw [h0] at l12
    simp at l12
  have hdu : '_' ∉ d := by
    rw [hd]
    exact not_memU_append (not_memU_hex hx8) (not_memU_cons (by decide)
      (not_memU_append (not_memU_hex hx4a) (not_memU_cons (by decide)
        (not_memU_append (not_memU_hex hx4b) (not_memU_cons (by decide)
          (not_memU_append (not_memU_hex hx4c) (not_memU_cons (by decide)
            (not_memU_hex hx12))))))))
  have hmem : '_' ∈ s := by
    rw [hs]
    exact List.mem_append_right base (List.mem_cons_self '_' d)
  have hsuf12 : h12 <:+ s := by
    rw [hs, hd]
    exact suffix_append_left base (suffix_cons '_' (suffix_append_left h8 (suffix_cons '-'
      (suffix_append_left h4a (suffix_cons '-' (suffix_append_left h4b (suffix_cons '-'
        (suffix_append_left h4c (suffix_cons '-' (suffix_self h12))))))))))
  have hgl : s.getLast? = some (h12.getLast h12ne) := by
    rw [getLast?_of_suffix hsuf12 h12ne, List.getLast?_eq_getLast h12 h12ne]
  have hnl : s.getLast? ≠ some '\n' := by
    rw [hgl]
    intro hcontra
    injection hcontra with hc
    have hhex := hx12 _ (List.getLast_mem h12ne)
    rw [hc] at hhex
    exact absurd hhex (by decide)
  have h3 : ¬ ("_runtime".data <:+ s) := fun hrt =>
    runtime_clash hsuf12 (by rw [l12]; omega) hx12 hrt
  have hrf : rfindU s = some base.length := by
    rw [hs]
    exact rfindU_append base d hdu
  have hdrop : s.drop (base.length + 1) = d := by
    rw [hs, show base ++ '_' :: d = (base ++ ['_']) ++ d from by simp,
      List.drop_left' (by simp)]
  have hdlen : d.length = 36 := by
    rw [hd]
    simp only [List.length_append, List.length_cons, l8, l4a, l4b, l4c, l12]
  have hnum : ¬ (0 < base.length
      ∧ SyncProperties.is_numeric_suffix (s.drop (base.length + 1)) = true) := by
    rintro ⟨_, hn⟩
    rw [hdrop, numeric_false_of_length (by rw [hdlen]; decide) (by rw [hdlen]; decide)] at hn
    exact Bool.false_ne_true hn
  have hr2a : ¬ rule2aMatch s := by
    refine rule2a_no_fire (A := base ++ '_' :: (h8 ++ '-' :: (h4a ++ '-' :: (h4b ++ ['-']))))
      (X := h4c) (Y := '-' :: h12) ?_ hx4c (by rw [l4c]; omega) ?_ hnl
    · rw [hs, hd]
      simp [List.append_assoc]
    · simp only [List.length_append, List.length_cons, l4c, l12]
  have hslen : s.length = base.length + 37 := by
    rw [hs]
    simp only [List.length_append, List.length_cons, hdlen]
  have hdropex : s.drop (s.length - 37) = '_' :: d := by
    rw [hslen, Nat.add_sub_cancel, hs]
    exact List.drop_left base ('_' :: d)
  have hp1none : ¬ p1chain (s.drop (s.length - 37)) = some [] := by
    rw [hdropex, hd, p1chain_stop_hyphen h8 _ l8 (List.all_eq_true.mpr hx8)]
    simp
  have hsub1 : subTail p1chain 37 s = none := subTail_none_no_nl p1chain_tail hnl hp1none
  have hp2some : p2chain (s.drop (s.length - 37)) = some [] := by
    rw [hdropex, hd, show h12 = h12 ++ [] from (List.append_nil h12).symm]
    exact p2chain_run h8 h4a h4b h4c h12 [] l8 l4a l4b l4c l12
      (List.all_eq_true.mpr hx8) (List.all_eq_true.mpr hx4a) (List.all_eq_true.mpr hx4b)
      (List.all_eq_true.mpr hx4c) (List.all_eq_true.mpr hx12)
  have hsub2 : subTail p2chain 37 s = some base := by
    unfold subTail
    rw [if_pos hp2some, hslen, Nat.add_sub_cancel, hs, List.take_left base ('_' :: d)]
  have hexne : ¬ (s = [] ∨ '_' ∉ s) := by
    rintro (he | hno)
    · rw [he] at hmem
      exact List.not_mem_nil '_' hmem
    · exact hno hmem
  rw [get_target_with_underscore s hmem, if_neg h3, hrf]
  show (if 0 < base.length
        ∧ SyncProperties.is_numeric_suffix (s.drop (base.length + 1)) = true
      then s.take base.length
      else if rule2aMatch s then (subTail num9yearChain 15 s).getD s
      else SyncProperties.extract_table_name_from_uuid s) = base
  rw [if_neg hnum, if_neg hr2a]
  unfold SyncProperties.extract_table_name_from_uuid
  rw [if_neg hexne, hsub1, hsub2]

theorem drop_append_le {a b : Str} {n : Nat} (h : n ≤ a.length) :
    (a ++ b).drop n = a.drop n ++ b := by
  induction a generalizing n with
  | nil =>
    simp at h
    rw [h]
    simp
  | cons x a ih =>
    cases n with
    | zero => simp
    | succ m =>
      simp only [List.cons_append, List.drop_succ_cons]
      exact ih (by simpa using h)

theorem get_target_uuid1 (base h8 h4a h4b h4c h12 : Str)
    (l8 : h8.length = 8) (l4a : h4a.length = 4) (l4b : h4b.length = 4)
    (l4c : h4c.length = 4) (l12 : h12.length = 12)
    (hx8 : ∀ c ∈ h8, isHexC c = true) (hx4a : ∀ c ∈ h4a, isHexC c = true)
    (hx4b : ∀ c ∈ h4b, isHexC c = true) (hx4c : ∀ c ∈ h4c, isHexC c = true)
    (hx12 : ∀ c ∈ h12, isHexC c = true) :
    SyncProperties.get_target_table_name
        (base ++ '_' :: (h8 ++ '_' :: (h4a ++ '_' :: (h4b ++ '_' :: (h4c ++ '_' :: h12)))))
      = base := by
  set d : Str := h8 ++ '_' :: (h4a ++ '_' :: (h4b ++ '_' :: (h4c ++ '_' :: h12))) with hd
  set s : Str := base ++ '_' :: d with hs
  have h12ne : h12 ≠ [] := by
    intro h0
    rw [h0] at l12
    simp at l12
  have hmem : '_' ∈ s := by
    rw [hs]
    exact List.mem_append_right base (List.mem_cons_self '_' d)
  have hsuf12 : h12 <:+ s := by
    rw [hs, hd]
    exact suffix_append_left base (suffix_cons '_' (suffix_append_left h8 (suffix_cons '_'
      (suffix_append_left h4a (suffix_cons '_' (suffix_append_left h4b (suffix_cons '_'
        (suffix_append_left h4c (suffix_cons '_' (suffix_self h12))))))))))
  have hgl : s.getLast? = some (h12.getLast h12ne) := by
    rw [getLast?_of_suffix hsuf12 h12ne, List.getLast?_eq_getLast h12 h12ne]
  have hnl : s.getLast? ≠ some '\n' := by
    rw [hgl]
    intro hcontra
    injection hcontra with hc
    have hhex := hx12 _ (List.getLast_mem h12ne)
    rw [hc] at hhex
    exact absurd hhex (by decide)
  have h3 : ¬ ("_runtime".data <:+ s) := fun hrt =>
    runtime_clash hsuf12 (by rw [l12]; omega) hx12 hrt
  have hsA : s = (base ++ '_' :: (h8 ++ '_' :: (h4a ++ '_' :: (h4b ++ '_' :: h4c)))) ++ '_' :: h12 := by
    rw [hs, hd]
    simp [List.append_assoc]
  have hrf : rfindU s = some (base.length + 24) := by
    rw [hsA, rfindU_append _ h12 (not_memU_hex hx12)]
    congr 1
    simp only [List.length_append, List.length_cons, List.length_nil, l8, l4a, l4b, l4c]
    try omega
  have hdropn : s.drop (base.length + 24 + 1) = h12 := by
    rw [hsA,
      show (base ++ '_' :: (h8 ++ '_' :: (h4a ++ '_' :: (h4b ++ '_' :: h4c)))) ++ '_' :: h12
        = ((base ++ '_' :: (h8 ++ '_' :: (h4a ++ '_' :: (h4b ++ '_' :: h4c)))) ++ ['_']) ++ h12
      from by simp,
      List.drop_left' (by
        simp only [List.length_append, List.length_cons, List.length_nil, l8, l4a, l4b, l4c]
        try omega)]
  have hnum : ¬ (0 < base.length + 24
      ∧ SyncProperties.is_numeric_suffix (s.drop (base.length + 24 + 1)) = true) := by
    rintro ⟨_, hn⟩
    rw [hdropn, numeric_false_of_length (by rw [l12]; decide) (by rw [l12]; decide)] at hn
    exact Bool.false_ne_true hn
  have hr2a : ¬ rule2aMatch s := by
    refine rule2a_no_fire (A := base ++ '_' :: (h8 ++ '_' :: (h4a ++ '_' :: (h4b ++ ['_']))))
      (X := h4c) (Y := '_' :: h12) ?_ hx4c (by rw [l4c]; omega) ?_ hnl
    · rw [hs, hd]
      simp [List.append_assoc]
    · simp only [List.length_append, List.length_cons, l4c, l12]
  have hdlen : d.length = 36 := by
    rw [hd]
    simp only [List.length_append, List.length_cons, l8, l4a, l4b, l4c, l12]
  have hslen : s.length = base.length + 37 := by
    rw [hs]
    simp only [List.length_append, List.length_cons, hdlen]
  have hdropex : s.drop (s.length - 37) = '_' :: d := by
    rw [hslen, Nat.add_sub_cancel, hs]
    exact List.drop_left base ('_' :: d)
  have hp1some : p1chain (s.drop (s.length - 37)) = some [] := by
    rw [hdropex, hd, show h12 = h12 ++ [] from (List.append_nil h12).symm]
    exact p1chain_run h8 h4a h4b h4c h12 [] l8 l4a l4b l4c l12
      (List.all_eq_true.mpr hx8) (List.all_eq_true.mpr hx4a) (List.all_eq_true.mpr hx4b)
      (List.all_eq_true.mpr hx4c) (List.all_eq_true.mpr hx12)
  have hsub1 : subTail p1chain 37 s = some base := by
    unfold subTail
    rw [if_pos hp1some, hslen, Nat.add_sub_cancel, hs, List.take_left base ('_' :: d)]
  have hexne : ¬ (s = [] ∨ '_' ∉ s) := by
    rintro (he | hno)
    · rw [he] at hmem
      exact List.not_mem_nil '_' hmem
    · exact hno hmem
  rw [get_target_with_underscore s hmem, if_neg h3, hrf]
  show (if 0 < base.length + 24
        ∧ SyncProperties.is_numeric_suffix (s.drop (base.length + 24 + 1)) = true
      then s.take (base.length + 24)
      else if rule2aMatch s then (subTail num9yearChain 15 s).getD s
      else SyncProperties.extract_table_name_from_uuid s) = base
  rw [if_neg hnum, if_neg hr2a]
  unfold SyncProperties.extract_table_name_from_uuid
  rw [if_neg hexne, hsub1]

theorem get_target_uuid3 (base h8 h4a h4b h4c h12 y4 : Str)
    (l8 : h8.length = 8) (l4a : h4a.length = 4) (l4b : h4b.length = 4)
    (l4c : h4c.length = 4) (l12 : h12.length = 12) (ly : y4.length = 4)
    (hx8 : ∀ c ∈ h8, isHexC c = true) (hx4a : ∀ c ∈ h4a, isHexC c = true)
    (hx4b : ∀ c ∈ h4b, isHexC c = true) (hx4c : ∀ c ∈ h4c, isHexC c = true)
    (hx12 : ∀ c ∈ h12, isHexC c = true) (hy : ∀ c ∈ y4, isDigitC c = true) :
    SyncProperties.get_target_table_name
        (base ++ '_' :: (h8 ++ '_' :: (h4a ++ '_' :: (h4b ++ '_' :: (h4c ++ '_' :: (h12 ++ '_' :: y4))))))
      = base := by
  set d : Str := h8 ++ '_' :: (h4a ++ '_' :: (h4b ++ '_' :: (h4c ++ '_' :: (h12 ++ '_' :: y4)))) with hd
  set s : Str := base ++ '_' :: d with hs
  have y4ne : y4 ≠ [] := by
    intro h0
    rw [h0] at ly
    simp at ly
  have hmem : '_' ∈ s := by
    rw [hs]
    exact List.mem_append_right base (List.mem_cons_self '_' d)
  have hsufy : y4 <:+ s := by
    rw [hs, hd]
    exact suffix_append_left base (suffix_cons '_' (suffix_append_left h8 (suffix_cons '_'
      (suffix_append_left h4a (suffix_cons '_' (suffix_append_left h4b (suffix_cons '_'
        (suffix_append_left h4c (suffix_cons '_' (suffix_append_left h12 (suffix_cons '_'
          (suffix_self y4))))))))))))
  have hgl : s.getLast? = some (y4.getLast y4ne) := by
    rw [getLast?_of_suffix hsufy y4ne, List.getLast?_eq_getLast y4 y4ne]
  have hnl : s.getLast? ≠ some '\n' := by
    rw [hgl]
    intro hcontra
    injection hcontra with hc
    have hdig := hy _ (List.getLast_mem y4ne)
    rw [hc] at hdig
    exact absurd hdig (by decide)
  have h3 : ¬ ("_runtime".data <:+ s) := by
    intro hrt
    have h8e : s.getLast? = some 'e' := by
      rw [getLast?_of_suffix hrt (by decide)]
      rfl
    rw [hgl] at h8e
    injection h8e with hce
    have hdig := hy _ (List.getLast_mem y4ne)
    rw [hce] at hdig
    exact absurd hdig (by decide)
  have hsA : s = (base ++ '_' :: (h8 ++ '_' :: (h4a ++ '_' :: (h4b ++ '_' :: (h4c ++ '_' :: h12))))) ++ '_' :: y4 := by
    rw [hs, hd]
    simp [List.append_assoc]
  have hrf : rfindU s = some (base.length + 37) := by
    rw [hsA, rfindU_append _ y4 (not_memU_digits hy)]
    congr 1
    simp only [List.length_append, List.length_cons, List.length_nil, l8, l4a, l4b, l4c, l12]
    try omega
  have hdropn : s.drop (base.length + 37 + 1) = y4 := by
    rw [hsA,
      show (base ++ '_' :: (h8 ++ '_' :: (h4a ++ '_' :: (h4b ++ '_' :: (h4c ++ '_' :: h12))))) ++ '_' :: y4
        = ((base ++ '_' :: (h8 ++ '_' :: (h4a ++ '_' :: (h4b ++ '_' :: (h4c ++ '_' :: h12))))) ++ ['_']) ++ y4
      from by simp,
      List.drop_left' (by
        simp only [List.length_append, List.length_cons, List.length_nil, l8, l4a, l4b, l4c, l12]
        try omega)]
  have hnum : ¬ (0 < base.length + 37
      ∧ SyncProperties.is_numeric_suffix (s.drop (base.length + 37 + 1)) = true) := by
    rintro ⟨_, hn⟩
    rw [hdropn, numeric_false_of_length (by rw [ly]; decide) (by rw [ly]; decide)] at hn
    exact Bool.false_ne_true hn
  have hr2a : ¬ rule2aMatch s := by
    refine rule2a_no_fire (A := base ++ '_' :: (h8 ++ '_' :: (h4a ++ '_' :: (h4b ++ '_' :: (h4c ++ ['_'])))))
      (X := h12) (Y := '_' :: y4) ?_ hx12 (by rw [l12]; omega) ?_ hnl
    · rw [hs, hd]
      simp [List.append_assoc]
    · simp only [List.length_append, List.length_cons, l12, ly]
  have hdlen : d.length = 41 := by
    rw [hd]
    simp only [List.length_append, List.length_cons, l8, l4a, l4b, l4c, l12, ly]
  have hslen : s.length = base.length + 42 := by
    rw [hs]
    simp only [List.length_append, List.length_cons, hdlen]
  have hdropP : s.drop (s.length - 37)
      = h8.drop 4 ++ '_' :: (h4a ++ '_' :: (h4b ++ '_' :: (h4c ++ '_' :: (h12 ++ '_' :: y4)))) := by
    rw [hslen, show base.length + 42 - 37 = base.length + 5 from by omega, hs,
      drop_add_left base ('_' :: d) 5, List.drop_succ_cons, hd,
      drop_append_le (by rw [l8]; omega)]
  have h8d4 : ∀ c ∈ h8.drop 4, isHexC c = true :=
    fun c hc => hx8 c (List.drop_subset 4 h8 hc)
  have h8d4ne : h8.drop 4 ≠ [] := by
    intro h0
    have hlen0 := congrArg List.length h0
    rw [List.length_drop, l8] at hlen0
    simp at hlen0
  have hp1none : ¬ p1chain (s.drop (s.length - 37)) = some [] := by
    rw [hdropP]
    cases hh : h8.drop 4 with
    | nil => exact absurd hh h8d4ne
    | cons c cs =>
      rw [List.cons_append]
      intro hcontra
      obtain ⟨rest, hrest⟩ := p1chain_startU hcontra
      injection hrest with h1 _
      have hchex : isHexC c = true := h8d4 c (by rw [hh]; exact List.mem_cons_self c cs)
      rw [h1] at hchex
      exact absurd hchex (by decide)
  have hp2none : ¬ p2chain (s.drop (s.length - 37)) = some [] := by
    rw [hdropP]
    cases hh : h8.drop 4 with
    | nil => exact absurd hh h8d4ne
    | cons c cs =>
      rw [List.cons_append]
      intro hcontra
      obtain ⟨rest, hrest⟩ := p2chain_startU hcontra
      injection hrest with h1 _
      have hchex : isHexC c = true := h8d4 c (by rw [hh]; exact List.mem_cons_self c cs)
      rw [h1] at hchex
      exact absurd hchex (by decide)
  have hsub1 : subTail p1chain 37 s = none := subTail_none_no_nl p1chain_tail hnl hp1none
  have hsub2 : subTail p2chain 37 s = none := subTail_none_no_nl p2chain_tail hnl hp2none
  have hdropex : s.drop (s.length - 42) = '_' :: d := by
    rw [hslen, Nat.add_sub_cancel, hs]
    exact List.drop_left base ('_' :: d)
  have hp3some : p3chain (s.drop (s.length - 42)) = some [] := by
    rw [hdropex, hd]
    exact p3chain_run h8 h4a h4b h4c h12 y4 l8 l4a l4b l4c l12 ly
      (List.all_eq_true.mpr hx8) (List.all_eq_true.mpr hx4a) (List.all_eq_true.mpr hx4b)
      (List.all_eq_true.mpr hx4c) (List.all_eq_true.mpr hx12) (List.all_eq_true.mpr hy)
  have hsub3 : subTail p3chain 42 s = some base := by
    unfold subTail
    rw [if_pos hp3some, hslen, Nat.add_sub_cancel, hs, List.take_left base ('_' :: d)]
  have hexne : ¬ (s = [] ∨ '_' ∉ s) := by
    rintro (he | hno)
    · rw [he] at hmem
      exact List.not_mem_nil '_' hmem
    · exact hno hmem
  rw [get_target_with_underscore s hmem, if_neg h3, hrf]
  show (if 0 < base.length + 37
        ∧ SyncProperties.is_numeric_suffix (s.drop (base.length + 37 + 1)) = true
      then s.take (base.length + 37)
      else if rule2aMatch s then (subTail num9yearChain 15 s).getD s
      else SyncProperties.extract_table_name_from_uuid s) = base
  rw [if_neg hnum, if_neg hr2a]
  unfold SyncProperties.extract_table_name_from_uuid
  rw [if_neg hexne, hsub1, hsub2, hsub3]

/-- C6 counterexample: the mapping is NOT idempotent on a name the runtime
rule matches — each application strips one suffix, so a stacked name such as
`a_runtime_runtime` maps to `a_runtime` and then again to `a`. -/
theorem C6_not_idempotent :
    SyncProperties.get_target_table_name
        (SyncProperties.get_target_table_name "a_runtime_runtime".data)
      ≠ SyncProperties.get_target_table_name "a_runtime_runtime".data := by
  decide

theorem scanUuid_sound (parts : List Str) :
    ∀ (j i : Nat), scanUuid parts j = some i →
      1 ≤ i ∧ i ≤ j ∧ (cleanChars (joinU (parts.drop i))).length = 32
        ∧ (cleanChars (joinU (parts.drop i))).all isHexC = true := by
  intro j
  induction j with
  | zero =>
    intro i h
    simp [scanUuid] at h
  | succ k ih =>
    intro i h
    unfold scanUuid at h
    dsimp only at h
    split at h
    · rename_i hcond
      injection h with h1
      rw [← h1]
      exact ⟨by omega, by omega, hcond.1, hcond.2⟩
    · split at h
      · simp at h
      · obtain ⟨ha, hb, hc, hdd⟩ := ih i h
        exact ⟨ha, by omega, hc, hdd⟩

theorem joinU_split : ∀ (ps : List Str) (i : Nat), 1 ≤ i → i < ps.length →
    joinU ps = joinU (ps.take i) ++ '_' :: joinU (ps.drop i) := by
  intro ps
  induction ps with
  | nil =>
    intro i h1 h2
    simp at h2
  | cons p ps ih =>
    intro i h1 h2
    cases i with
    | zero => omega
    | succ j =>
      cases j with
      | zero =>
        have hps : ps ≠ [] := by
          intro h0
          rw [h0] at h2
          simp at h2
        rw [List.take_succ_cons, List.take_zero, List.drop_succ_cons, List.drop_zero,
          joinU_cons p ps hps]
        rfl
      | succ k =>
        have hlen : k + 1 < ps.length := by
          simpa using h2
        have hps : ps ≠ [] := by
          intro h0
          rw [h0] at hlen
          simp only [List.length_nil] at hlen
          omega
        rw [List.take_succ_cons, List.drop_succ_cons, joinU_cons p ps hps]
        have htk : ps.take (k + 1) ≠ [] := by
          intro h0
          have hl := congrArg List.length h0
          simp only [List.length_take, List.length_nil] at hl
          omega
        rw [joinU_cons p (ps.take (k + 1)) htk, ih (k + 1) (by omega) (by omega)]
        simp [List.append_assoc]

/-- C6 amended: each matching rule strips exactly the matched suffix — shown
for the `_runtime` rule, the 9-digit rule, and the three anchored UUID rules
(underscore-separated, hyphen-separated, and underscore-separated followed by
a year); the generic 32-hex fallback scan answers only positions whose
joined, cleaned suffix is exactly 32 hex characters, and then removes
exactly `_` plus that suffix.  The mapping is NOT idempotent in general —
each application strips one suffix — but re-application is the identity
whenever the result contains no underscore. -/
theorem C6_suffix_rules :
    (∀ base : Str, SyncProperties.get_target_table_name (base ++ "_runtime".data) = base)
    ∧ (∀ base d : Str, base ≠ [] → d.length = 9 → (∀ c ∈ d, isDigitC c = true) →
        SyncProperties.get_target_table_name (base ++ '_' :: d) = base)
    ∧ (∀ base h8 h4a h4b h4c h12 : Str,
        h8.length = 8 → h4a.length = 4 → h4b.length = 4 → h4c.length = 4 →
        h12.length = 12 →
        (∀ c ∈ h8, isHexC c = true) → (∀ c ∈ h4a, isHexC c = true) →
        (∀ c ∈ h4b, isHexC c = true) → (∀ c ∈ h4c, isHexC c = true) →
        (∀ c ∈ h12, isHexC c = true) →
        SyncProperties.get_target_table_name
            (base ++ '_' :: (h8 ++ '_' :: (h4a ++ '_' :: (h4b ++ '_' :: (h4c ++ '_' :: h12)))))
          = base
        ∧ SyncProperties.get_target_table_name
            (base ++ '_' :: (h8 ++ '-' :: (h4a ++ '-' :: (h4b ++ '-' :: (h4c ++ '-' :: h12)))))
          = base)
    ∧ (∀ base h8 h4a h4b h4c h12 y4 : Str,
        h8.length = 8 → h4a.length = 4 → h4b.length = 4 → h4c.length = 4 →
        h12.length = 12 → y4.length = 4 →
        (∀ c ∈ h8, isHexC c = true) → (∀ c ∈ h4a, isHexC c = true) →
        (∀ c ∈ h4b, isHexC c = true) → (∀ c ∈ h4c, isHexC c = true) →
        (∀ c ∈ h12, isHexC c = true) → (∀ c ∈ y4, isDigitC c = true) →
        SyncProperties.get_target_table_name
            (base ++ '_' :: (h8 ++ '_' :: (h4a ++ '_' :: (h4b ++ '_' :: (h4c ++ '_' :: (h12 ++ '_' :: y4))))))
          = base)
    ∧ (∀ (parts : List Str) (j i : Nat), scanUuid parts j = some i →
        1 ≤ i ∧ i ≤ j ∧ (cleanChars (joinU (parts.drop i))).length = 32
          ∧ (cleanChars (joinU (parts.drop i))).all isHexC = true)
    ∧ (∀ (s : Str) (i : Nat), 1 ≤ i → i < (splitU s).length →
        joinU ((splitU s).take i) ++ '_' :: joinU ((splitU s).drop i) = s)
    ∧ (∀ s : Str, '_' ∉ SyncProperties.get_target_table_name s →
        SyncProperties.get_target_table_name (SyncProperties.get_target_table_name s)
          = SyncProperties.get_target_table_name s) := by
  refine ⟨get_target_runtime, get_target_num9, ?_, get_target_uuid3, scanUuid_sound,
    ?_, fun _ h => get_target_no_underscore _ h⟩
  · intro base h8 h4a h4b h4c h12 l8 l4a l4b l4c l12 hx8 hx4a hx4b hx4c hx12
    exact ⟨get_target_uuid1 base h8 h4a h4b h4c h12 l8 l4a l4b l4c l12 hx8 hx4a hx4b hx4c hx12,
      get_target_uuid2 base h8 h4a h4b h4c h12 l8 l4a l4b l4c l12 hx8 hx4a hx4b hx4c hx12⟩
  · intro s i h1 h2
    rw [← joinU_split (splitU s) i h1 h2, joinU_splitU]

/-- C6 witness: the 9-digit rule at `orders_123456789` and the hyphen UUID
rule at `users_a1b2c3d4-e5f6-7890-abcd-ef1234567890`. -/
theorem C6_suffix_rules_witness :
    "orders".data ≠ ([] : Str)
    ∧ SyncProperties.get_target_table_name ("orders".data ++ '_' :: "123456789".data)
        = "orders".data
    ∧ SyncProperties.get_target_table_name
        ("users".data ++ '_' :: ("a1b2c3d4".data ++ '-' :: ("e5f6".data ++ '-' ::
          ("7890".data ++ '-' :: ("abcd".data ++ '-' :: "ef1234567890".data)))))
        = "users".data :=
  ⟨by decide,
   C6_suffix_rules.2.1 "orders".data "123456789".data (by decide) (by decide) (by decide),
   (C6_suffix_rules.2.2.1 "users".data "a1b2c3d4".data "e5f6".data "7890".data "abcd".data
      "ef1234567890".data (by decide) (by decide) (by decide) (by decide) (by decide)
      (by decide) (by decide) (by decide) (by decide) (by decide)).2⟩

theorem resolve_fold_preserves (t : Str) :
    ∀ (ns : List Str) (acc : List Str) (x : Str), x ∈ acc →
      x ∈ ns.foldl (fun acc s =>
        if SyncProperties.get_target_table_name s = t ∧ s ∉ acc then acc ++ [s]
        else acc) acc := by
  intro ns
  induction ns with
  | nil =>
    intro acc x hx
    exact hx
  | cons a ns ih =>
    intro acc x hx
    rw [List.foldl_cons]
    apply ih
    split
    · exact List.mem_append_left _ hx
    · exact hx

theorem resolve_fold_adds (t : Str) :
    ∀ (ns : List Str) (acc : List Str) (x : Str), x ∈ ns →
      SyncProperties.get_target_table_name x = t →
      x ∈ ns.foldl (fun acc s =>
        if SyncProperties.get_target_table_name s = t ∧ s ∉ acc then acc ++ [s]
        else acc) acc := by
  intro ns
  induction ns with
  | nil =>
    intro acc x hx _
    exact absurd hx (List.not_mem_nil x)
  | cons a ns ih =>
    intro acc x hx hmap
    rw [List.foldl_cons]
    rcases List.mem_cons.mp hx with rfl | hx'
    · by_cases hin : SyncProperties.get_target_table_name x = t ∧ x ∉ acc
      · apply resolve_fold_preserves
        rw [if_pos hin]
        exact List.mem_append_right _ (List.mem_cons_self x [])
      · rcases not_and_or.mp hin with hm | hnm
        · exact absurd hmap hm
        · have hxacc : x ∈ acc := not_not.mp hnm
          apply resolve_fold_preserves
          split
          · exact List.mem_append_left _ hxacc
          · exact hxacc
    · exact ih _ x hx' hmap

theorem resolve_fold_no_match (t : Str) :
    ∀ (ns : List Str) (acc : List Str),
      (∀ s ∈ ns, SyncProperties.get_target_table_name s ≠ t) →
      ns.foldl (fun acc s =>
        if SyncProperties.get_target_table_name s = t ∧ s ∉ acc then acc ++ [s]
        else acc) acc = acc := by
  intro ns
  induction ns with
  | nil =>
    intro acc _
    rfl
  | cons a ns ih =>
    intro acc h
    rw [List.foldl_cons]
    have hstep : (if SyncProperties.get_target_table_name a = t ∧ a ∉ acc
        then acc ++ [a] else acc) = acc :=
      if_neg (fun hc => h a (List.mem_cons_self a ns) hc.1)
    rw [hstep]
    exact ih acc (fun s hs => h s (List.mem_cons_of_mem a hs))

/-- C5: the reverse mapping includes every source name that matches directly
or via the name mapping; in particular every source name lands in the list of
its own mapped target; when nothing matches the list falls back to the target
name; and the list is never empty. -/
theorem C5_reverse_mapping :
    (∀ (s t : Str) (ns : List Str), s ∈ ns →
        (s = t ∨ SyncProperties.get_target_table_name s = t) →
        s ∈ resolveSourceNames t ns)
    ∧ (∀ s : Str, s ∈ resolveSourceNames (SyncProperties.get_target_table_name s) [s])
    ∧ (∀ (t : Str) (ns : List Str),
        (∀ s ∈ ns, s ≠ t ∧ SyncProperties.get_target_table_name s ≠ t) →
        resolveSourceNames t ns = [t])
    ∧ (∀ (t : Str) (ns : List Str), resolveSourceNames t ns ≠ []) := by
  have part1 : ∀ (s t : Str) (ns : List Str), s ∈ ns →
      (s = t ∨ SyncProperties.get_target_table_name s = t) →
      s ∈ resolveSourceNames t ns := by
    intro s t ns hmem hor
    unfold resolveSourceNames
    dsimp only
    have hsl2 : s ∈ ns.foldl (fun acc x =>
        if SyncProperties.get_target_table_name x = t ∧ x ∉ acc then acc ++ [x]
        else acc) (if t ∈ ns then [t] else []) := by
      rcases hor with rfl | hmap
      · apply resolve_fold_preserves
        rw [if_pos hmem]
        exact List.mem_cons_self s []
      · exact resolve_fold_adds t ns _ s hmem hmap
    rw [if_neg (List.ne_nil_of_mem hsl2)]
    exact hsl2
  refine ⟨part1, ?_, ?_, ?_⟩
  · intro s
    exact part1 s (SyncProperties.get_target_table_name s) [s]
      (List.mem_cons_self s []) (Or.inr rfl)
  · intro t ns h
    unfold resolveSourceNames
    dsimp only
    have hl1 : (if t ∈ ns then [t] else []) = ([] : List Str) := by
      rw [if_neg]
      intro htm
      exact (h t htm).1 rfl
    rw [hl1, resolve_fold_no_match t ns [] (fun s hs => (h s hs).2), if_pos rfl]
  · intro t ns
    unfold resolveSourceNames
    dsimp only
    by_cases hl2 : (ns.foldl (fun acc s =>
        if SyncProperties.get_target_table_name s = t ∧ s ∉ acc then acc ++ [s]
        else acc) (if t ∈ ns then [t] else [])) = []
    · rw [if_pos hl2]
      exact List.cons_ne_nil t []
    · rw [if_neg hl2]
      exact hl2

/-- C5 witness: `a_runtime` maps to target `a` and the reverse mapping for
`a` over the source list `[a_runtime]` contains `a_runtime`. -/
theorem C5_reverse_mapping_witness :
    "a_runtime".data ∈ ["a_runtime".data]
    ∧ "a_runtime".data ∈ resolveSourceNames "a".data ["a_runtime".data] :=
  ⟨by decide, C5_reverse_mapping.1 "a_runtime".data "a".data ["a_runtime".data]
      (by decide) (Or.inr (by decide))⟩
